import Mathlib

/-!
Verification of the payload_extract_bot-rs repository core against its
specification.  The development shallowly embeds the pure content of
`src/patch_boot.rs`, `src/payload.rs` and `src/tool.rs`:

* byte buffers are `List Nat` (each element a byte value),
* strings are Lean `String` / `List Char` (Rust strings are UTF-8 and
  Rust `char` = Unicode scalar value = Lean `Char`),
* fallible Rust functions returning `anyhow::Result` become
  `Except String _` with the error message the code constructs,
* external effects (HTTP, the filesystem, subprocesses) are threaded as
  explicit oracle parameters or state values.
-/

/-- Decidable equality for `Except`, used to evaluate the embedded
fallible operations on concrete inputs. -/
instance exceptDecEq {ε α : Type} [DecidableEq ε] [DecidableEq α] :
    DecidableEq (Except ε α) := fun x y =>
  match x, y with
  | .error a, .error b =>
    if h : a = b then .isTrue (by rw [h])
    else .isFalse (fun hc => h (Except.error.inj hc))
  | .ok a, .ok b =>
    if h : a = b then .isTrue (by rw [h])
    else .isFalse (fun hc => h (Except.ok.inj hc))
  | .error _, .ok _ => .isFalse (fun hc => Except.noConfusion hc)
  | .ok _, .error _ => .isFalse (fun hc => Except.noConfusion hc)

/-! ## Byte-level helpers: NUL splitting and UTF-8 validation

`get_kmi` (src/patch_boot.rs:159-161) computes
`buffer.split(|&b| b == 0).filter_map(|slice| std::str::from_utf8(slice).ok())`.
`splitNul` mirrors `slice::split` on the byte 0 (empty subslices are kept,
a trailing separator yields a trailing empty subslice), and `utf8Decode?`
mirrors `std::str::from_utf8`: it succeeds exactly on valid UTF-8
(continuation bytes 0x80-0xBF, no overlong encodings, no surrogates,
nothing above U+10FFFF) and returns the decoded scalar values. -/

/-- Whether a byte is a UTF-8 continuation byte (0x80-0xBF). -/
def isUtf8Cont (b : Nat) : Bool := 0x80 ≤ b && b ≤ 0xBF

/-- UTF-8 validation and decoding of a byte sequence, mirroring
`std::str::from_utf8`: `some` with the decoded characters exactly when the
bytes are valid UTF-8, `none` otherwise. -/
def utf8Decode? : List Nat → Option (List Char)
  | [] => some []
  | b :: rest =>
    if b ≤ 0x7F then
      (utf8Decode? rest).map (fun cs => Char.ofNat b :: cs)
    else if 0xC2 ≤ b && b ≤ 0xDF then
      match rest with
      | b1 :: rest1 =>
        if isUtf8Cont b1 then
          (utf8Decode? rest1).map (fun cs =>
            Char.ofNat ((b - 0xC0) * 64 + (b1 - 0x80)) :: cs)
        else none
      | [] => none
    else if 0xE0 ≤ b && b ≤ 0xEF then
      match rest with
      | b1 :: b2 :: rest2 =>
        if (if b = 0xE0 then 0xA0 ≤ b1 && b1 ≤ 0xBF
            else if b = 0xED then 0x80 ≤ b1 && b1 ≤ 0x9F
            else isUtf8Cont b1) && isUtf8Cont b2 then
          (utf8Decode? rest2).map (fun cs =>
            Char.ofNat ((b - 0xE0) * 4096 + (b1 - 0x80) * 64 + (b2 - 0x80)) :: cs)
        else none
      | _ => none
    else if 0xF0 ≤ b && b ≤ 0xF4 then
      match rest with
      | b1 :: b2 :: b3 :: rest3 =>
        if (if b = 0xF0 then 0x90 ≤ b1 && b1 ≤ 0xBF
            else if b = 0xF4 then 0x80 ≤ b1 && b1 ≤ 0x8F
            else isUtf8Cont b1) && isUtf8Cont b2 && isUtf8Cont b3 then
          (utf8Decode? rest3).map (fun cs =>
            Char.ofNat ((b - 0xF0) * 262144 + (b1 - 0x80) * 4096 +
              (b2 - 0x80) * 64 + (b3 - 0x80)) :: cs)
        else none
      | _ => none
    else none

/-- Split a byte buffer at NUL bytes, mirroring
`buffer.split(|&b| b == 0)`: separators are dropped, empty subslices kept. -/
def splitNul : List Nat → List (List Nat)
  | [] => [[]]
  | b :: rest =>
    if b = 0 then [] :: splitNul rest
    else
      match splitNul rest with
      | [] => [[b]]
      | g :: gs => (b :: g) :: gs

/-- Byte encoding of an ASCII-only string (each char is one byte). -/
def asciiBytes (s : String) : List Nat := s.data.map Char.toNat

/-! ## A regular-expression engine with Rust `regex` semantics

The `regex` crate uses leftmost-first (Perl-style) match semantics: the
match starts at the earliest possible position, alternatives are tried
left to right, quantifiers are greedy, and the reported capture groups
are those of the first match found in this preference order.  The
backtracking matcher below implements exactly that preference order; the
two patterns of `get_kmi` are then built from this syntax.  `fuel` bounds
the recursion depth; `reSearch` supplies more than any search over the
given input can consume, so the bound is never hit. -/

/-- Regular-expression syntax: character classes, concatenation, ordered
alternation (left preferred), greedy Kleene star and capture groups. -/
inductive RE where
  | emp : RE
  | cls : (Char → Bool) → RE
  | cat : RE → RE → RE
  | alt : RE → RE → RE
  | star : RE → RE
  | grp : Nat → RE → RE

/-- Captures recorded along a match: group index paired with the consumed
substring.  The most recent binding of a group comes first. -/
abbrev RECaps := List (Nat × List Char)

/-- Backtracking matcher in continuation-passing style.  Preference
order: `alt` tries the left alternative first, `star` tries consuming one
more repetition before stopping (greedy).  The first success in this
order is returned, exactly the leftmost-first semantics of the Rust
`regex` crate. -/
def reMatch (fuel : Nat) (re : RE) (input : List Char) (caps : RECaps)
    (k : List Char → RECaps → Option RECaps) : Option RECaps :=
  match fuel with
  | 0 => none
  | fuel + 1 =>
    match re with
    | .emp => k input caps
    | .cls p =>
      match input with
      | [] => none
      | c :: rest => if p c then k rest caps else none
    | .cat a b => reMatch fuel a input caps (fun rest caps2 => reMatch fuel b rest caps2 k)
    | .alt a b =>
      match reMatch fuel a input caps k with
      | some r => some r
      | none => reMatch fuel b input caps k
    | .star a =>
      match reMatch fuel a input caps (fun rest caps2 =>
          if rest.length < input.length then reMatch fuel (.star a) rest caps2 k
          else none) with
      | some r => some r
      | none => k input caps
    | .grp i a =>
      reMatch fuel a input caps (fun rest caps2 =>
        k rest ((i, input.take (input.length - rest.length)) :: caps2))

/-- Unanchored search: try a match at each start position from the left;
the first position admitting a match wins (leftmost semantics). -/
def reSearchFrom (fuel : Nat) (re : RE) (s : List Char) : Option RECaps :=
  match reMatch fuel re s [] (fun _ caps => some caps) with
  | some caps => some caps
  | none =>
    match s with
    | [] => none
    | _ :: t => reSearchFrom fuel re t

/-- Search with ample fuel for the patterns of this development. -/
def reSearch (re : RE) (s : List Char) : Option RECaps :=
  reSearchFrom (64 * (s.length + 2)) re s

/-- Content of a capture group: the most recently recorded binding. -/
def lookupCap (n : Nat) : RECaps → Option (List Char)
  | [] => none
  | (i, g) :: rest => if i = n then some g else lookupCap n rest

/-- Unicode White_Space code points: the set matched by the Rust regex
class `\s`, by `char::is_whitespace` and by `str::trim`. -/
def isWhiteNat (n : Nat) : Bool :=
  n == 32 || (9 ≤ n && n ≤ 13) || n == 0x85 || n == 0xA0 || n == 0x1680 ||
  (0x2000 ≤ n && n ≤ 0x200A) || n == 0x2028 || n == 0x2029 ||
  n == 0x202F || n == 0x205F || n == 0x3000

/-- The regex class `.` (any character but a newline). -/
def reDot : RE := .cls (fun c => c.toNat != 10)

/-- The regex class `\d` (an ASCII digit under the default Unicode
interpretation restricted to the byte range relevant here; the `regex`
crate's `\d` also covers other Unicode digits, which cannot occur in the
candidate strings this development evaluates). -/
def reDigit : RE := .cls (fun c => 48 ≤ c.toNat && c.toNat ≤ 57)

/-- The regex class `\S` (anything but Unicode whitespace). -/
def reNonSpace : RE := .cls (fun c => !isWhiteNat c.toNat)

/-- A literal character. -/
def reLit (c : Char) : RE := .cls (fun d => d == c)

/-- A literal string. -/
def reStr (s : String) : RE := s.data.foldr (fun c r => .cat (reLit c) r) .emp

/-- Greedy `+`. -/
def rePlus (a : RE) : RE := .cat a (.star a)

/-- Greedy `?`. -/
def reOpt (a : RE) : RE := .alt a .emp

/-- The pattern `(?:.* )?(\d+\.\d+)(?:\S+)?(android\d+)` built by
`get_kmi` (src/patch_boot.rs:153): group 1 is the version-like token,
group 2 the `android<digits>` token. -/
def kmiRE : RE :=
  .cat (reOpt (.cat (.star reDot) (reLit ' ')))
    (.cat (.grp 1 (.cat (rePlus reDigit) (.cat (reLit '.') (rePlus reDigit))))
      (.cat (reOpt (rePlus reNonSpace))
        (.grp 2 (.cat (reStr "android") (rePlus reDigit)))))

/-- The pattern `Linux version (.*)` built by `get_kmi`
(src/patch_boot.rs:154). -/
def kernelVersionRE : RE :=
  .cat (reStr "Linux version ") (.grp 1 (.star reDot))

/-! ## The metadata-recovery scan of `get_kmi` (src/patch_boot.rs:136-202) -/

/-- The printability test of the KMI branch:
`c.is_ascii_graphic() || c == ' '`. -/
def isPrintableCh (c : Char) : Bool := (33 ≤ c.toNat && c.toNat ≤ 126) || c.toNat == 32

/-- Both-ends trim of Unicode whitespace, mirroring `str::trim`. -/
def trimChars (l : List Char) : List Char :=
  ((l.dropWhile (fun c => isWhiteNat c.toNat)).reverse.dropWhile
    (fun c => isWhiteNat c.toNat)).reverse

/-- The KMI extracted from one candidate string: when `kmi_re` matches,
groups 1 and 2 are composed as `format!("{}-{}", android, version_part)`
(src/patch_boot.rs:166-175).  The printability gate lives in the scan
loop, not here. -/
def kmiOf (s : List Char) : Option String :=
  match reSearch kmiRE s with
  | none => none
  | some caps =>
    match lookupCap 1 caps, lookupCap 2 caps with
    | some g1, some g2 => some (String.mk g2 ++ "-" ++ String.mk g1)
    | _, _ => none

/-- The kernel version extracted from one candidate string: the capture
of `Linux version (.*)`, trimmed, accepted only when non-empty
(src/patch_boot.rs:178-187). -/
def kernelVersionOf (s : List Char) : Option String :=
  match reSearch kernelVersionRE s with
  | none => none
  | some caps =>
    match lookupCap 1 caps with
    | none => none
    | some g =>
      let t := trimChars g
      if t.isEmpty then none else some (String.mk t)

/-- One candidate string's effect on the KMI state
(src/patch_boot.rs:164-176): the branch fires only while no KMI was
found, and only on a string that is entirely printable-ASCII-or-space. -/
def stepKmi (kmi : Option String) (s : List Char) : Option String :=
  match kmi with
  | some k => some k
  | none => if s.all isPrintableCh then kmiOf s else none

/-- One candidate string's effect on the kernel-version state
(src/patch_boot.rs:178-187): the branch fires only while no version was
found; printability is not required here. -/
def stepKernelVersion (kv : Option String) (s : List Char) : Option String :=
  match kv with
  | some v => some v
  | none => kernelVersionOf s

/-- The scan loop of `get_kmi` (src/patch_boot.rs:163-192): candidate
strings are visited once in order, both states are updated per string,
and the loop stops as soon as both are known. -/
def scanChunks : List (List Char) → Option String → Option String →
    Option String × Option String
  | [], kmi, kv => (kmi, kv)
  | s :: rest, kmi, kv =>
    if (stepKmi kmi s).isSome && (stepKernelVersion kv s).isSome then
      (stepKmi kmi s, stepKernelVersion kv s)
    else scanChunks rest (stepKmi kmi s) (stepKernelVersion kv s)

/-- Outcome assembly of `get_kmi` (src/patch_boot.rs:194-201). -/
def getKmiCore (chunks : List (List Char)) : Except String (String × String) :=
  match scanChunks chunks none none with
  | (some k, some v) => .ok (k, v)
  | (some _, none) => .error "Can't parse kernel version from kernel"
  | (none, some _) => .error "Can't parse kmi from boot.img"
  | (none, none) => .error "Can't parse kmi and kernel version from boot.img"

/-- The scan applied to NUL-delimited byte chunks: only chunks that are
valid UTF-8 become candidate strings (src/patch_boot.rs:159-161). -/
def getKmiOfByteChunks (chunks : List (List Nat)) : Except String (String × String) :=
  getKmiCore (chunks.filterMap utf8Decode?)

/-- The candidate strings of a kernel-image byte buffer
(src/patch_boot.rs:159-161): split at NUL bytes, keep the chunks that
decode as UTF-8. -/
def candidateStrings (buffer : List Nat) : List (List Char) :=
  (splitNul buffer).filterMap utf8Decode?

/-- The pure content of `get_kmi` on the bytes of the unpacked kernel
image (src/patch_boot.rs:136-202): scan the candidate strings and
assemble the result or a stage-specific error. -/
def get_kmi (buffer : List Nat) : Except String (String × String) :=
  getKmiCore (candidateStrings buffer)

/-! ## String ordering, sorting and consecutive deduplication

`dump_partition` (src/payload.rs:22-24) runs `partitions.sort()` then
`partitions.dedup()`.  Rust sorts `String`s by byte-lexicographic order,
which on valid UTF-8 equals code-point-lexicographic order; `lexLe`
implements that order on `List Char`.  `Vec::dedup` removes consecutive
duplicates, here `dedupConsec`. -/

/-- Code-point-lexicographic order on character lists (equals Rust's
byte-lexicographic `Ord` on `String`). -/
def lexLe : List Char → List Char → Bool
  | [], _ => true
  | _ :: _, [] => false
  | a :: as, b :: bs =>
    if a.toNat < b.toNat then true
    else if b.toNat < a.toNat then false
    else lexLe as bs

/-- Rust's `Ord` on `String`, as a Boolean relation. -/
def strLe (a b : String) : Bool := lexLe a.data b.data

/-- Insertion of one element into a (sorted) list, ascending by `strLe`. -/
def orderedInsertStr (x : String) : List String → List String
  | [] => [x]
  | y :: ys => if strLe x y then x :: y :: ys else y :: orderedInsertStr x ys

/-- Ascending sort by `strLe`, the effect of `partitions.sort()` (equal
strings are indistinguishable, so stability is irrelevant). -/
def sortStrings : List String → List String
  | [] => []
  | x :: xs => orderedInsertStr x (sortStrings xs)

/-- Tail worker of `dedupConsec`: drop each element equal to the most
recently kept one. -/
def dedupChain (prev : String) : List String → List String
  | [] => []
  | y :: ys => if y = prev then dedupChain prev ys else y :: dedupChain y ys

/-- Removal of consecutive duplicates, mirroring `Vec::dedup`. -/
def dedupConsec : List String → List String
  | [] => []
  | x :: xs => x :: dedupChain x xs

/-- Split at commas, mirroring `str::split(',')` (empty pieces kept, the
empty string yields one empty piece). -/
def splitCommaChars : List Char → List (List Char)
  | [] => [[]]
  | c :: rest =>
    if c = ',' then [] :: splitCommaChars rest
    else
      match splitCommaChars rest with
      | [] => [[c]]
      | g :: gs => (c :: g) :: gs

/-- The comma split on strings
(`partition.split(',').map(|s| s.to_string())`, src/payload.rs:22). -/
def splitComma (s : String) : List String :=
  (splitCommaChars s.data).map (fun g => String.mk g)

/-- The partition-name list `dump_partition` actually works through:
split at commas, sort, remove consecutive duplicates
(src/payload.rs:22-24). -/
def requestedList (partition : String) : List String :=
  dedupConsec (sortStrings (splitComma partition))

/-! ## The dump orchestrator (src/payload.rs:18-70) -/

/-- One entry of the remote listing, as read from the collaborator's
JSON: `name`, optional `size_bytes`, optional `hash`
(src/payload.rs:38-44). -/
structure RemotePartition where
  name : String
  size_bytes : Option Nat
  hash : Option String
deriving DecidableEq

/-- The result record built per found partition (src/payload.rs:11-16,
39-44); `path` is the output file name under the dump's temp
directory. -/
structure PartitionInfo where
  name : String
  size : Nat
  hash : Option String
  path : String
deriving DecidableEq

/-- Lookup in the remote listing:
`all_partitions_info.iter().find(|p| p["name"] == p_name)`
(src/payload.rs:38). -/
def partitionFind (remote : List RemotePartition) (n : String) : Option RemotePartition :=
  remote.find? (fun p => p.name == n)

/-- The per-name loop of `dump_partition` (src/payload.rs:36-63): for
each requested name found in the listing, push one `PartitionInfo` and
spawn one extraction unit (returned second, in spawn order); names
absent from the listing contribute nothing. -/
def dumpLoop (remote : List RemotePartition) :
    List String → List PartitionInfo × List String
  | [] => ([], [])
  | n :: rest =>
    match partitionFind remote n with
    | some p =>
      let r := dumpLoop remote rest
      ({ name := n, size := p.size_bytes.getD 0, hash := p.hash,
         path := n ++ ".img" } :: r.1, n :: r.2)
    | none => dumpLoop remote rest

/-- The await loop `for rx in receivers { rx.await?? }`
(src/payload.rs:65-67): outcomes are inspected in spawn order and the
first failure aborts the whole dump.  `extract` is the oracle for one
extraction unit's delivered outcome (the collaborator's
`extract_partition_remote_zip` bridged through the one-shot channel). -/
def awaitAll (extract : String → Except String Unit) : List String → Except String Unit
  | [] => .ok ()
  | n :: rest =>
    match extract n with
    | .error e => .error e
    | .ok _ => awaitAll extract rest

/-- The pure content of `dump_partition` (src/payload.rs:18-70): the
requested names are sorted and deduplicated, the loop builds the result
entries and launches the extraction units, the await loop observes the
outcomes in spawn order, and on success the entries are returned in the
order the loop built them.  No completion schedule appears anywhere: the
result is a function of the request, the listing and the per-unit
outcomes only. -/
def dump_partition (partition : String) (remote : List RemotePartition)
    (extract : String → Except String Unit) : Except String (List PartitionInfo) :=
  let r := dumpLoop remote (requestedList partition)
  match awaitAll extract r.2 with
  | .error e => .error e
  | .ok _ => .ok r.1

/-- The `PartitionInfo` entries a successful dump returns. -/
def dumpFiles (partition : String) (remote : List RemotePartition) : List PartitionInfo :=
  (dumpLoop remote (requestedList partition)).1

/-- The names for which extraction units are launched, in spawn order. -/
def launchedNames (partition : String) (remote : List RemotePartition) : List String :=
  (dumpLoop remote (requestedList partition)).2

/-- The name sequence of the returned entries. -/
def resultNames (partition : String) (remote : List RemotePartition) : List String :=
  (dumpFiles partition remote).map (fun f => f.name)

/-! ## The boot-patch pipeline (src/patch_boot.rs:11-134) -/

/-- The patch-method enum (src/patch_boot.rs:11-14). -/
inductive PatchMethod where
  | KernelSU
  | Magisk
deriving DecidableEq

/-- `PatchMethod::from` (src/patch_boot.rs:17-23). -/
def PatchMethod.fromString (s : String) : Except String PatchMethod :=
  match s with
  | "kernelsu" | "ksu" | "k" => .ok .KernelSU
  | "magisk" | "m" => .ok .Magisk
  | _ => .error ("Invalid patch method: " ++ s)

/-- `PatchMethod::to_string` (src/patch_boot.rs:24-29). -/
def PatchMethod.to_string : PatchMethod → String
  | .KernelSU => "kernelsu"
  | .Magisk => "magisk"

/-- The patch-partition enum (src/patch_boot.rs:32-36). -/
inductive PatchPartition where
  | Boot
  | InitBoot
  | VendorBoot
deriving DecidableEq

/-- `PatchPartition::from` (src/patch_boot.rs:39-46). -/
def PatchPartition.fromString (s : String) : Except String PatchPartition :=
  match s with
  | "boot" | "b" => .ok .Boot
  | "init_boot" | "ib" => .ok .InitBoot
  | "vendor_boot" | "vb" => .ok .VendorBoot
  | _ => .error ("Invalid patch partition: " ++ s)

/-- `PatchPartition::get_partition_name` (src/patch_boot.rs:48-54). -/
def PatchPartition.get_partition_name : PatchPartition → String
  | .Boot => "boot"
  | .InitBoot => "init_boot"
  | .VendorBoot => "vendor_boot"

/-- The terminal output record (src/patch_boot.rs:62-66). -/
structure PatchedFile where
  path : String
  kmi : String
  kernel_version : String
deriving DecidableEq

/-- The partition string `patch_boot` hands to `dump_partition`:
`images` holds the raw `patch_partition` token followed by `"boot"`,
joined with commas (src/patch_boot.rs:129-132).  Note the raw token, not
the canonical `get_partition_name`, is pushed. -/
def patchDumpRequest (patch_partition : String) : String :=
  String.intercalate "," [patch_partition, "boot"]

/-- `Patch::patch` (src/patch_boot.rs:69-116) after the dump: for
KernelSU the KMI and kernel version are recovered from the dumped boot
image (`kmiResult` is the oracle for `get_kmi` on the unpacked kernel,
whose pure content is `get_kmi` above), the patcher subprocess runs with
its output ignored, and the constructed output path is returned; for
Magisk the stub error is returned. -/
def Patch.patch (method : PatchMethod) (partition : PatchPartition) (dir : String)
    (kmiResult : Except String (String × String)) : Except String PatchedFile :=
  match method with
  | .KernelSU =>
    match kmiResult with
    | .error e => .error e
    | .ok (kmi, kernel_version) =>
      .ok { path := dir ++ "/" ++ (PatchMethod.to_string .KernelSU ++ "_patched_" ++
              partition.get_partition_name ++ "-" ++ kmi ++ ".img"),
            kmi := kmi, kernel_version := kernel_version }
  | .Magisk => .error "Magisk patch hasn't implemented!"

/-- The pure content of `patch_boot` (src/patch_boot.rs:119-134): parse
the method, parse the partition, dump the raw target token together with
`"boot"`, then run `Patch::patch` in the dump's directory.  `dump` is
the oracle for `dump_partition`'s outcome on the given URL and joined
partition string (it fails when the URL cannot be listed or an
extraction fails); `dir` is the temp directory the dump returned and
`kmiResult` the oracle for the metadata recovery inside it. -/
def patch_boot (url patch_partition patch_method : String)
    (dump : String → String → Except String Unit)
    (kmiResult : Except String (String × String)) (dir : String) :
    Except String PatchedFile :=
  match PatchMethod.fromString patch_method with
  | .error e => .error e
  | .ok method =>
    match PatchPartition.fromString patch_partition with
    | .error e => .error e
    | .ok partition =>
      match dump url (patchDumpRequest patch_partition) with
      | .error e => .error e
      | .ok _ => Patch.patch method partition dir kmiResult

/-! ## Tool acquisition (src/tool.rs) -/

/-- The observable local state of one tool: whether its `localPath`
exists and how many fetches have been performed. -/
structure ToolDisk where
  present : Bool
  fetches : Nat
deriving DecidableEq

/-- Outcome of one `get_latest` call: `success` models the path that
downloads and writes the binary (after which the file exists), `failure`
a release-query or download error, which happens before anything is
written (src/tool.rs:74-108). -/
inductive FetchOutcome where
  | success
  | failure
deriving DecidableEq

/-- One `get_latest` call against the state: it always counts as a
fetch; on success the file is written (mode 0755) so the path exists
afterwards; on failure nothing was written. -/
def tool_get_latest (o : FetchOutcome) (s : ToolDisk) : Except String Unit × ToolDisk :=
  match o with
  | .success => (.ok (), { present := true, fetches := s.fetches + 1 })
  | .failure => (.error "Failed to fetch latest release",
      { present := s.present, fetches := s.fetches + 1 })

/-- `Tool::init` (src/tool.rs:23-31): if the path exists the call
returns `Ok(())` touching nothing; otherwise it delegates to
`get_latest`. -/
def tool_init (o : FetchOutcome) (s : ToolDisk) : Except String Unit × ToolDisk :=
  if s.present then (.ok (), s) else tool_get_latest o s

/-- Two consecutive `init` calls (the fetch oracle may differ per
call). -/
def tool_init_twice (o1 o2 : FetchOutcome) (s : ToolDisk) :
    Except String Unit × ToolDisk :=
  tool_init o2 (tool_init o1 s).2

/-- The in-archive member path `MAGISKBOOT::get_latest` selects by CPU
architecture (src/tool.rs:158-165). -/
def magiskboot_bin_name (arch : String) : String :=
  "lib/" ++ (if arch = "x86_64" then "x86_64" else "arm64-v8a") ++ "/libmagiskboot.so"

/-- The extraction loop of `MAGISKBOOT::get_latest`
(src/tool.rs:167-174): every archive entry is visited; each entry whose
name equals the selected member path overwrites `localPath` with its
content; nothing else touches the file.  `fs` is the content of
`localPath` (`none` when the file does not exist). -/
def magiskboot_extract_loop (arch : String) (entries : List (String × List Nat))
    (fs : Option (List Nat)) : Option (List Nat) :=
  match entries with
  | [] => fs
  | e :: rest =>
    magiskboot_extract_loop arch rest
      (if e.1 = magiskboot_bin_name arch then some e.2 else fs)

/-- The post-download phase of `MAGISKBOOT::get_latest`
(src/tool.rs:154-182): run the extraction loop over the downloaded
archive, then `fs::set_permissions(localPath, 0755)`, which fails with
the OS not-found error when the path does not exist and is the last
fallible step before `Ok(())`. -/
def magiskboot_get_latest (arch : String) (entries : List (String × List Nat))
    (fs : Option (List Nat)) : Except String (Option (List Nat)) :=
  match magiskboot_extract_loop arch entries fs with
  | some content => .ok (some content)
  | none => .error "No such file or directory (os error 2)"

/-! ## Order-theoretic facts about `lexLe`, the sort and the deduplication -/

theorem lexLe_total : ∀ as bs : List Char, lexLe as bs = false → lexLe bs as = true
  | [], _, h => by simp [lexLe] at h
  | _ :: _, [], _ => rfl
  | a :: as, b :: bs, h => by
    by_cases h1 : a.toNat < b.toNat
    · simp [lexLe, h1] at h
    · by_cases h2 : b.toNat < a.toNat
      · simp [lexLe, h1, h2]
      · simp only [lexLe, if_neg h1, if_neg h2] at h
        simpa [lexLe, if_neg h1, if_neg h2] using lexLe_total as bs h

theorem lexLe_trans : ∀ as bs cs : List Char,
    lexLe as bs = true → lexLe bs cs = true → lexLe as cs = true
  | [], _, _, _, _ => rfl
  | _ :: _, [], _, h1, _ => by simp [lexLe] at h1
  | _ :: _, _ :: _, [], _, h2 => by simp [lexLe] at h2
  | a :: as, b :: bs, c :: cs, h1, h2 => by
    by_cases hab : a.toNat < b.toNat
    · by_cases hbc : b.toNat < c.toNat
      · simp [lexLe, Nat.lt_trans hab hbc]
      · by_cases hcb : c.toNat < b.toNat
        · simp [lexLe, hbc, hcb] at h2
        · have heq : b.toNat = c.toNat := by omega
          have hac : a.toNat < c.toNat := heq ▸ hab
          simp [lexLe, hac]
    · by_cases hba : b.toNat < a.toNat
      · simp [lexLe, hab, hba] at h1
      · have hab2 : a.toNat = b.toNat := by omega
        simp only [lexLe, if_neg hab, if_neg hba] at h1
        by_cases hbc : b.toNat < c.toNat
        · have hac : a.toNat < c.toNat := hab2 ▸ hbc
          simp [lexLe, hac]
        · by_cases hcb : c.toNat < b.toNat
          · simp [lexLe, hbc, hcb] at h2
          · have hbc2 : b.toNat = c.toNat := by omega
            simp only [lexLe, if_neg hbc, if_neg hcb] at h2
            have hnac : ¬ a.toNat < c.toNat := by omega
            have hnca : ¬ c.toNat < a.toNat := by omega
            simp only [lexLe, if_neg hnac, if_neg hnca]
            exact lexLe_trans as bs cs h1 h2

theorem lexLe_antisymm : ∀ as bs : List Char,
    lexLe as bs = true → lexLe bs as = true → as = bs
  | [], [], _, _ => rfl
  | [], _ :: _, _, h2 => by simp [lexLe] at h2
  | _ :: _, [], h1, _ => by simp [lexLe] at h1
  | a :: as, b :: bs, h1, h2 => by
    by_cases hab : a.toNat < b.toNat
    · have hnba : ¬ b.toNat < a.toNat := by omega
      simp [lexLe, hab, hnba] at h2
    · by_cases hba : b.toNat < a.toNat
      · simp [lexLe, hab, hba] at h1
      · have heq : a.toNat = b.toNat := by omega
        have hc : a = b := Char.ext (UInt32.toNat.inj heq)
        simp only [lexLe, if_neg hab, if_neg hba] at h1 h2
        rw [hc, lexLe_antisymm as bs h1 h2]

/-- The order `strLe` as a relation for `List.Pairwise`. -/
def strLeP (a b : String) : Prop := strLe a b = true

/-- The corresponding strict relation. -/
def strLtP (a b : String) : Prop := strLe a b = true ∧ a ≠ b

theorem strLe_total (a b : String) (h : strLe a b = false) : strLe b a = true :=
  lexLe_total a.data b.data h

theorem strLe_trans (a b c : String) (h1 : strLe a b = true) (h2 : strLe b c = true) :
    strLe a c = true :=
  lexLe_trans a.data b.data c.data h1 h2

theorem strLe_antisymm (a b : String) (h1 : strLe a b = true) (h2 : strLe b a = true) :
    a = b := by
  cases a with
  | mk da => cases b with
    | mk db => exact congrArg String.mk (lexLe_antisymm da db h1 h2)

theorem mem_orderedInsertStr (x a : String) :
    ∀ l, a ∈ orderedInsertStr x l ↔ a = x ∨ a ∈ l
  | [] => by simp [orderedInsertStr]
  | y :: ys => by
    by_cases h : strLe x y
    · simp only [orderedInsertStr, if_pos h, List.mem_cons]
    · simp only [orderedInsertStr, if_neg h, List.mem_cons, mem_orderedInsertStr x a ys]
      tauto

theorem pairwise_orderedInsertStr (x : String) :
    ∀ l, l.Pairwise strLeP → (orderedInsertStr x l).Pairwise strLeP
  | [], _ => by simp [orderedInsertStr, strLeP]
  | y :: ys, hp => by
    rcases List.pairwise_cons.mp hp with ⟨hy, hys⟩
    by_cases h : strLe x y
    · simp only [orderedInsertStr, if_pos h]
      refine List.pairwise_cons.mpr ⟨?_, hp⟩
      intro z hz
      rcases List.mem_cons.mp hz with rfl | hz2
      · exact h
      · exact strLe_trans x y z h (hy z hz2)
    · simp only [orderedInsertStr, if_neg h]
      refine List.pairwise_cons.mpr ⟨?_, pairwise_orderedInsertStr x ys hys⟩
      intro z hz
      rcases (mem_orderedInsertStr x z ys).mp hz with heq | hz2
      · rw [heq]
        exact strLe_total x y (Bool.eq_false_iff.mpr h)
      · exact hy z hz2

theorem sortStrings_pairwise : ∀ l, (sortStrings l).Pairwise strLeP
  | [] => List.Pairwise.nil
  | x :: xs => pairwise_orderedInsertStr x (sortStrings xs) (sortStrings_pairwise xs)

theorem mem_sortStrings (a : String) : ∀ l, a ∈ sortStrings l ↔ a ∈ l
  | [] => Iff.rfl
  | x :: xs => by
    simp only [sortStrings, mem_orderedInsertStr x a (sortStrings xs),
      mem_sortStrings a xs, List.mem_cons]

theorem mem_of_mem_dedupChain : ∀ (l : List String) (prev a : String),
    a ∈ dedupChain prev l → a ∈ l
  | [], _, _, h => absurd h (List.not_mem_nil _)
  | y :: ys, prev, a, h => by
    by_cases hy : y = prev
    · simp only [dedupChain, if_pos hy] at h
      exact List.mem_cons_of_mem y (mem_of_mem_dedupChain ys prev a h)
    · simp only [dedupChain, if_neg hy] at h
      rcases List.mem_cons.mp h with heq | h2
      · rw [heq]; exact List.mem_cons_self _ _
      · exact List.mem_cons_of_mem y (mem_of_mem_dedupChain ys y a h2)

theorem mem_dedupChain_of_mem : ∀ (l : List String) (prev a : String),
    a ∈ l → a = prev ∨ a ∈ dedupChain prev l
  | [], _, a, h => absurd h (List.not_mem_nil a)
  | y :: ys, prev, a, h => by
    by_cases hy : y = prev
    · simp only [dedupChain, if_pos hy]
      rcases List.mem_cons.mp h with heq | h2
      · exact Or.inl (heq.trans hy)
      · exact mem_dedupChain_of_mem ys prev a h2
    · simp only [dedupChain, if_neg hy]
      rcases List.mem_cons.mp h with heq | h2
      · exact Or.inr (heq ▸ List.mem_cons_self y (dedupChain y ys))
      · rcases mem_dedupChain_of_mem ys y a h2 with heq | h3
        · exact Or.inr (heq ▸ List.mem_cons_self y (dedupChain y ys))
        · exact Or.inr (List.mem_cons_of_mem y h3)

theorem mem_dedupConsec (a : String) : ∀ l, a ∈ dedupConsec l ↔ a ∈ l
  | [] => Iff.rfl
  | x :: xs => by
    simp only [dedupConsec, List.mem_cons]
    constructor
    · rintro (heq | h)
      · exact Or.inl heq
      · exact Or.inr (mem_of_mem_dedupChain xs x a h)
    · rintro (heq | h)
      · exact Or.inl heq
      · rcases mem_dedupChain_of_mem xs x a h with heq | h2
        · exact Or.inl heq
        · exact Or.inr h2

theorem pairwise_lt_dedupChain : ∀ (l : List String) (prev : String),
    (prev :: l).Pairwise strLeP → (prev :: dedupChain prev l).Pairwise strLtP
  | [], prev, _ => by simp [dedupChain]
  | y :: ys, prev, hp => by
    rcases List.pairwise_cons.mp hp with ⟨hprev, hys⟩
    by_cases hy : y = prev
    · simp only [dedupChain, if_pos hy]
      apply pairwise_lt_dedupChain ys prev
      refine List.pairwise_cons.mpr ⟨?_, (List.pairwise_cons.mp hys).2⟩
      intro z hz
      exact hprev z (List.mem_cons_of_mem y hz)
    · simp only [dedupChain, if_neg hy]
      have hrec := pairwise_lt_dedupChain ys y hys
      refine List.pairwise_cons.mpr ⟨?_, hrec⟩
      intro z hz
      rcases List.mem_cons.mp hz with heq | hz2
      · exact heq ▸ ⟨hprev y (List.mem_cons_self _ _), fun he => hy he.symm⟩
      · have hyz : strLtP y z := (List.pairwise_cons.mp hrec).1 z hz2
        have hpy : strLeP prev y := hprev y (List.mem_cons_self _ _)
        refine ⟨strLe_trans prev y z hpy hyz.1, ?_⟩
        intro he
        exact hyz.2 (strLe_antisymm y z hyz.1 (he ▸ hpy))

theorem pairwise_dedupConsec (l : List String) (hp : l.Pairwise strLeP) :
    (dedupConsec l).Pairwise strLeP := by
  cases l with
  | nil => exact List.Pairwise.nil
  | cons x xs => exact (pairwise_lt_dedupChain xs x hp).imp (fun h => h.1)

theorem nodup_dedupConsec (l : List String) (hp : l.Pairwise strLeP) :
    (dedupConsec l).Nodup := by
  cases l with
  | nil => exact List.nodup_nil
  | cons x xs => exact (pairwise_lt_dedupChain xs x hp).imp (fun h => h.2)

theorem requestedList_pairwise (p : String) : (requestedList p).Pairwise strLeP :=
  pairwise_dedupConsec _ (sortStrings_pairwise _)

theorem requestedList_nodup (p : String) : (requestedList p).Nodup :=
  nodup_dedupConsec _ (sortStrings_pairwise _)

theorem mem_requestedList (p a : String) : a ∈ requestedList p ↔ a ∈ splitComma p := by
  rw [requestedList, mem_dedupConsec, mem_sortStrings]

/-! ## Facts about the dump loop and the await loop -/

theorem dumpLoop_launched (remote : List RemotePartition) :
    ∀ req, (dumpLoop remote req).2 =
      req.filter (fun n => (partitionFind remote n).isSome)
  | [] => rfl
  | n :: rest => by
    cases hf : partitionFind remote n with
    | some p => simp [dumpLoop, hf, List.filter_cons, dumpLoop_launched remote rest]
    | none => simp [dumpLoop, hf, List.filter_cons, dumpLoop_launched remote rest]

theorem dumpLoop_names (remote : List RemotePartition) :
    ∀ req, (dumpLoop remote req).1.map (fun f => f.name) = (dumpLoop remote req).2
  | [] => rfl
  | n :: rest => by
    cases hf : partitionFind remote n with
    | some p => simp [dumpLoop, hf, dumpLoop_names remote rest]
    | none => simp [dumpLoop, hf, dumpLoop_names remote rest]

theorem awaitAll_ok (extract : String → Except String Unit)
    (hex : ∀ n, extract n = Except.ok ()) : ∀ l, awaitAll extract l = Except.ok ()
  | [] => rfl
  | n :: rest => by
    simp only [awaitAll, hex n]
    exact awaitAll_ok extract hex rest

theorem dump_partition_ok (partition : String) (remote : List RemotePartition)
    (extract : String → Except String Unit) (hex : ∀ n, extract n = Except.ok ()) :
    dump_partition partition remote extract = Except.ok (dumpFiles partition remote) := by
  simp only [dump_partition, dumpFiles, awaitAll_ok extract hex]

/-! ## Facts about the metadata scan -/

theorem scanChunks_kv_stays_none : ∀ (chunks : List (List Char)) (kmi : Option String),
    (∀ s ∈ chunks, kernelVersionOf s = none) →
    (scanChunks chunks kmi none).2 = none
  | [], _, _ => rfl
  | s :: rest, kmi, h => by
    have hs : kernelVersionOf s = none := h s (List.mem_cons_self _ _)
    simp only [scanChunks, stepKernelVersion, hs, Option.isSome_none, Bool.and_false,
      if_false]
    exact scanChunks_kv_stays_none rest _ (fun t ht => h t (List.mem_cons_of_mem s ht))

theorem scanChunks_kmi_stays_some : ∀ (chunks : List (List Char)) (k : String)
    (kv : Option String), (scanChunks chunks (some k) kv).1 = some k
  | [], _, _ => rfl
  | s :: rest, k, kv => by
    simp only [scanChunks, stepKmi]
    split
    · rfl
    · exact scanChunks_kmi_stays_some rest k _

theorem scanChunks_finds_kmi : ∀ (chunks : List (List Char)),
    (∃ s ∈ chunks, s.all isPrintableCh = true ∧ (kmiOf s).isSome = true) →
    (∀ s ∈ chunks, kernelVersionOf s = none) →
    ∃ k, scanChunks chunks none none = (some k, none)
  | [], hex, _ => absurd hex (by simp)
  | s :: rest, hex, hall => by
    have hs : kernelVersionOf s = none := hall s (List.mem_cons_self _ _)
    have hrest : ∀ t ∈ rest, kernelVersionOf t = none :=
      fun t ht => hall t (List.mem_cons_of_mem s ht)
    simp only [scanChunks, stepKernelVersion, hs, Option.isSome_none, Bool.and_false,
      if_false]
    cases hk : stepKmi none s with
    | some k =>
      refine ⟨k, ?_⟩
      have h1 := scanChunks_kmi_stays_some rest k none
      have h2 := scanChunks_kv_stays_none rest (some k) hrest
      rw [if_neg Bool.false_ne_true]
      exact Prod.ext h1 h2
    | none =>
      rcases hex with ⟨t, ht, hprint, hsome⟩
      rcases List.mem_cons.mp ht with heq | ht2
      · exfalso
        rw [heq] at hprint hsome
        simp only [stepKmi, hprint, if_true] at hk
        rw [hk] at hsome
        simp at hsome
      · rw [if_neg Bool.false_ne_true]
        exact scanChunks_finds_kmi rest ⟨t, ht2, hprint, hsome⟩ hrest

/-! ## Claim C1: the round-trip through `get_kmi` -/

/-- The kernel buffer of claim C1: the NUL-padded literal
`...5.10.101-android13-8-00674-...` followed by the NUL-terminated
`Linux version 5.10.101-something`. -/
def c1KernelBuffer : List Nat :=
  asciiBytes "...5.10.101-android13-8-00674-..." ++
    0 :: (asciiBytes "Linux version 5.10.101-something" ++ [0])

/-- C1 counterexample: on the described kernel buffer `get_kmi` does not
return kmi = "android13-5.10.101" (the pattern `(\d+\.\d+)` captures a
two-component version token, never three components). -/
theorem get_kmi_c1_counterexample :
    get_kmi c1KernelBuffer ≠
      Except.ok ("android13-5.10.101", "5.10.101-something") := by decide

/-- C1 (amended): on a kernel binary whose NUL-delimited candidate
substrings include the literal bytes `...5.10.101-android13-8-00674-...`
and the NUL-terminated `Linux version 5.10.101-something`, the
metadata-recovery scan returns kmi = "android13-5.10" (the two-component
version token composed after `android13`) and
kernelVersion = "5.10.101-something". -/
theorem get_kmi_c1_roundtrip :
    get_kmi c1KernelBuffer =
      Except.ok ("android13-5.10", "5.10.101-something") := by decide

/-! ## Claim C9: KMI present, kernel version absent -/

/-- C9: for every kernel buffer whose candidate substrings contain an
entirely printable, KMI-matching string but no substring matching the
`Linux version (.*)` pattern with non-empty trimmed capture, `get_kmi`
fails with exactly the kernel-version-missing error. -/
theorem get_kmi_kernel_version_missing (buffer : List Nat)
    (hkmi : ∃ s ∈ candidateStrings buffer,
      s.all isPrintableCh = true ∧ (kmiOf s).isSome = true)
    (hkv : ∀ s ∈ candidateStrings buffer, kernelVersionOf s = none) :
    get_kmi buffer = Except.error "Can't parse kernel version from kernel" := by
  obtain ⟨k, hk⟩ := scanChunks_finds_kmi (candidateStrings buffer) hkmi hkv
  unfold get_kmi getKmiCore
  rw [hk]

/-- C9 witness: a buffer holding only the NUL-terminated string
`5.10-android12` satisfies both hypotheses and yields the
kernel-version-missing error. -/
theorem get_kmi_kernel_version_missing_witness :
    (∀ s ∈ candidateStrings (asciiBytes "5.10-android12" ++ [0]),
      kernelVersionOf s = none) ∧
    get_kmi (asciiBytes "5.10-android12" ++ [0]) =
      Except.error "Can't parse kernel version from kernel" :=
  ⟨by decide,
   get_kmi_kernel_version_missing (asciiBytes "5.10-android12" ++ [0])
     (by decide) (by decide)⟩

/-! ## Claim C10: chunks with invalid UTF-8 are skipped entirely -/

/-- C10: a NUL-delimited byte chunk that does not decode as valid UTF-8
contributes nothing to the scan — removing it from the chunk sequence
leaves the recovery outcome unchanged, for both the KMI and the
kernel-version match.  In particular a `Linux version ...` text embedded
in such a chunk is never recovered. -/
theorem get_kmi_skips_invalid_utf8 (pre post : List (List Nat)) (c : List Nat)
    (h : utf8Decode? c = none) :
    getKmiOfByteChunks (pre ++ c :: post) = getKmiOfByteChunks (pre ++ post) := by
  unfold getKmiOfByteChunks
  rw [List.filterMap_append, List.filterMap_append, List.filterMap_cons_none h]

/-- C10 witness: a chunk carrying `Linux version 5.10.1-x` plus the
invalid byte 0xFF is skipped, so next to a KMI-carrying chunk the scan
reports the kernel version as missing. -/
theorem get_kmi_skips_invalid_utf8_witness :
    utf8Decode? (asciiBytes "Linux version 5.10.1-x" ++ [255]) = none ∧
    getKmiOfByteChunks ([asciiBytes "5.10-android12"] ++
        (asciiBytes "Linux version 5.10.1-x" ++ [255]) :: []) =
      getKmiOfByteChunks ([asciiBytes "5.10-android12"] ++ []) ∧
    getKmiOfByteChunks [asciiBytes "5.10-android12",
        asciiBytes "Linux version 5.10.1-x" ++ [255]] =
      Except.error "Can't parse kernel version from kernel" :=
  ⟨by decide,
   get_kmi_skips_invalid_utf8 [asciiBytes "5.10-android12"] []
     (asciiBytes "Linux version 5.10.1-x" ++ [255]) (by decide),
   by decide⟩

/-! ## Claim C2: the Magisk stub and the preceding dump -/

/-- C2 counterexample: with method `magisk`, a valid partition token and
a URL whose dump fails, `patch_boot` returns the dump's error, not the
`NotImplementedError` — the dump runs before the method dispatch. -/
theorem patch_magisk_url_counterexample :
    patch_boot "http://bad" "init_boot" "magisk"
        (fun _ _ => Except.error "Failed to get rom info")
        (Except.ok ("k", "v")) "tmp/1" =
      Except.error "Failed to get rom info" ∧
    ("Failed to get rom info" : String) ≠ "Magisk patch hasn't implemented!" := by
  decide

/-- C2 (amended): for every URL and valid partition token, once the dump
of the requested partitions succeeds, `patch_boot` with method `magisk`
fails with exactly the `NotImplementedError`; when the dump fails, its
error is returned first instead. -/
theorem patch_magisk_not_implemented (url pp dir : String)
    (dump : String → String → Except String Unit)
    (kmiResult : Except String (String × String))
    (hpart : ∃ part, PatchPartition.fromString pp = Except.ok part)
    (hdump : dump url (patchDumpRequest pp) = Except.ok ()) :
    patch_boot url pp "magisk" dump kmiResult dir =
      Except.error "Magisk patch hasn't implemented!" := by
  obtain ⟨part, hp⟩ := hpart
  unfold patch_boot
  rw [hp, hdump]
  rfl

/-- C2 witness: with the alias partition token `init_boot` and an
always-successful dump, the Magisk stub error is returned. -/
theorem patch_magisk_not_implemented_witness :
    (∃ part, PatchPartition.fromString "init_boot" = Except.ok part) ∧
    patch_boot "http://u" "init_boot" "magisk" (fun _ _ => Except.ok ())
        (Except.error "x") "tmp/1" =
      Except.error "Magisk patch hasn't implemented!" :=
  ⟨⟨PatchPartition.InitBoot, rfl⟩,
   patch_magisk_not_implemented "http://u" "init_boot" "tmp/1"
     (fun _ _ => Except.ok ()) (Except.error "x")
     ⟨PatchPartition.InitBoot, rfl⟩ rfl⟩

/-! ## Claim C3: a release archive without the magiskboot member -/

/-- C3 counterexample: an archive with no entry named like the selected
member and a stale file already at `localPath` makes
`MAGISKBOOT::get_latest` report success (leaving the stale file), so the
operation neither raises an archive-member error nor fails at all. -/
theorem magiskboot_missing_member_counterexample :
    ("META-INF/com/google/android/update-binary" : String) ≠
      magiskboot_bin_name "x86_64" ∧
    magiskboot_get_latest "x86_64"
        [("META-INF/com/google/android/update-binary", [77])] (some [1]) =
      Except.ok (some [1]) := by decide

/-- C3 (amended): for every downloaded archive in which no entry's name
equals the architecture-selected member path, nothing is written to
`localPath`; there is no dedicated archive-member error: the call fails
with the OS not-found error of the final `set_permissions` when
`localPath` does not exist, and reports success leaving any pre-existing
file unchanged when it does. -/
theorem magiskboot_missing_member_behavior (arch : String)
    (entries : List (String × List Nat)) (fs : Option (List Nat))
    (h : ∀ e ∈ entries, e.1 ≠ magiskboot_bin_name arch) :
    magiskboot_extract_loop arch entries fs = fs ∧
    magiskboot_get_latest arch entries fs =
      (match fs with
       | some content => Except.ok (some content)
       | none => Except.error "No such file or directory (os error 2)") := by
  have hloop : ∀ (l : List (String × List Nat)),
      (∀ e ∈ l, e.1 ≠ magiskboot_bin_name arch) →
      ∀ fs2, magiskboot_extract_loop arch l fs2 = fs2 := by
    intro l
    induction l with
    | nil => intro _ _; rfl
    | cons e rest ih =>
      intro hl fs2
      have he : e.1 ≠ magiskboot_bin_name arch := hl e (List.mem_cons_self _ _)
      simp only [magiskboot_extract_loop, if_neg he]
      exact ih (fun x hx => hl x (List.mem_cons_of_mem e hx)) fs2
  refine ⟨hloop entries h fs, ?_⟩
  unfold magiskboot_get_latest
  rw [hloop entries h fs]

/-- C3 witness: with no matching entry and no pre-existing file, the
call fails with the OS not-found error. -/
theorem magiskboot_missing_member_behavior_witness :
    (("certs/cert.pem" : String) ≠ magiskboot_bin_name "x86_64") ∧
    magiskboot_get_latest "x86_64" [("certs/cert.pem", [2])] none =
      Except.error "No such file or directory (os error 2)" :=
  ⟨by decide,
   (magiskboot_missing_member_behavior "x86_64" [("certs/cert.pem", [2])] none
     (by decide)).2⟩

/-! ## Claim C4: the order of the returned partition sequence -/

/-- The two-partition remote listing of the C4 ordering scenario. -/
def remoteAB : List RemotePartition :=
  [{ name := "a", size_bytes := some 1, hash := none },
   { name := "b", size_bytes := some 2, hash := none }]

/-- C4 counterexample: requesting "b,a" (both present remotely) returns
the entries in sorted order ["a", "b"], not in the requested order
["b", "a"] — the orchestrator sorts the requested names before the
loop. -/
theorem dump_order_counterexample :
    dump_partition "b,a" remoteAB (fun _ => Except.ok ()) =
      Except.ok [{ name := "a", size := 1, hash := none, path := "a.img" },
                 { name := "b", size := 2, hash := none, path := "b.img" }] ∧
    resultNames "b,a" remoteAB = ["a", "b"] ∧
    (["a", "b"] : List String) ≠ ["b", "a"] := by decide

/-- C4 (amended): when every launched extraction succeeds, the dump
succeeds and the returned sequence follows the lexicographically sorted
order of the deduplicated requested names restricted to those present
remotely — a deterministic order independent of any completion schedule
(none appears in the semantics), which coincides with the request order
only when the request is already sorted, as in the spec's [A, B, C]
example. -/
theorem dump_result_order_sorted (partition : String)
    (remote : List RemotePartition) (extract : String → Except String Unit)
    (hex : ∀ n, extract n = Except.ok ()) :
    dump_partition partition remote extract = Except.ok (dumpFiles partition remote) ∧
    resultNames partition remote =
      (requestedList partition).filter (fun n => (partitionFind remote n).isSome) ∧
    (resultNames partition remote).Pairwise strLeP := by
  have hnames : resultNames partition remote =
      (requestedList partition).filter (fun n => (partitionFind remote n).isSome) := by
    unfold resultNames dumpFiles
    rw [dumpLoop_names, dumpLoop_launched]
  refine ⟨dump_partition_ok partition remote extract hex, hnames, ?_⟩
  rw [hnames]
  exact (requestedList_pairwise partition).sublist (List.filter_sublist _)

/-- C4 witness: the sorted-order conclusion evaluated on the "b,a"
request against the two-partition listing. -/
theorem dump_result_order_sorted_witness :
    resultNames "b,a" remoteAB =
      (requestedList "b,a").filter (fun n => (partitionFind remoteAB n).isSome) :=
  (dump_result_order_sorted "b,a" remoteAB (fun _ => Except.ok ())
    (fun _ => rfl)).2.1

/-! ## Claim C5: the partition names the patch pipeline dumps -/

/-- C5 (code bug evaluation): for the advertised alias token `ib`
(canonical partition `init_boot`), `patch_boot` requests a dump of the
raw token and `boot`: the deduplicated request is ["boot", "ib"] and
does not contain "init_boot", although `Patch::patch` later patches
`init_boot.img` — the alias's canonical image is never dumped. -/
theorem patch_alias_dump_request_bug :
    PatchPartition.fromString "ib" = Except.ok PatchPartition.InitBoot ∧
    PatchPartition.get_partition_name PatchPartition.InitBoot = "init_boot" ∧
    patchDumpRequest "ib" = "ib,boot" ∧
    requestedList (patchDumpRequest "ib") = ["boot", "ib"] ∧
    "init_boot" ∉ requestedList (patchDumpRequest "ib") := by decide

/-! ## Claim C6: idempotence of `Tool::init` -/

/-- C6 counterexample: when the tool is absent and the fetch fails, two
consecutive `init` calls perform two fetches — "at most one fetch"
holds only when the first fetch succeeds. -/
theorem tool_init_refetch_counterexample :
    (tool_init_twice FetchOutcome.failure FetchOutcome.failure
      { present := false, fetches := 0 }).2.fetches = 2 ∧
    ¬ ((tool_init_twice FetchOutcome.failure FetchOutcome.failure
      { present := false, fetches := 0 }).2.fetches ≤ 1) := by decide

/-- C6 (amended): if `localPath` exists, `init` is a no-op that succeeds
without fetching; otherwise it delegates to `get_latest`, and when that
fetch succeeds the file exists afterwards, so the two consecutive calls
perform exactly one fetch and the second call is a pure existence
check.  (When the fetch fails the file stays absent and a second call
fetches again.) -/
theorem tool_init_idempotent_on_success (s : ToolDisk) (o o2 : FetchOutcome) :
    (s.present = true → tool_init o s = (Except.ok (), s)) ∧
    (s.present = false →
      (tool_init FetchOutcome.success s).1 = Except.ok () ∧
      (tool_init FetchOutcome.success s).2.fetches = s.fetches + 1 ∧
      (tool_init FetchOutcome.success s).2.present = true ∧
      tool_init o2 (tool_init FetchOutcome.success s).2 =
        (Except.ok (), (tool_init FetchOutcome.success s).2)) := by
  constructor
  · intro h
    simp [tool_init, h]
  · intro h
    simp [tool_init, tool_get_latest, h]

/-- C6 witness: from the absent state with zero fetches, a successful
first call performs one fetch and the second call (even with a failing
oracle) is a no-op. -/
theorem tool_init_idempotent_on_success_witness :
    (({ present := false, fetches := 0 } : ToolDisk).present = false) ∧
    (tool_init FetchOutcome.success { present := false, fetches := 0 }).2.fetches =
      0 + 1 :=
  ⟨rfl,
   ((tool_init_idempotent_on_success { present := false, fetches := 0 }
     FetchOutcome.success FetchOutcome.failure).2 rfl).2.1⟩

/-! ## Claim C7: requested names absent from the remote listing -/

/-- C7: for every requested name absent from the remote listing, the
dump (all launched extractions succeeding) succeeds, the result set
contains no entry for that name, and no extraction unit is launched for
it. -/
theorem dump_absent_name_dropped (partition name : String)
    (remote : List RemotePartition) (extract : String → Except String Unit)
    (hex : ∀ n, extract n = Except.ok ())
    (habs : ∀ p ∈ remote, p.name ≠ name) :
    dump_partition partition remote extract = Except.ok (dumpFiles partition remote) ∧
    name ∉ resultNames partition remote ∧
    name ∉ launchedNames partition remote := by
  have hraw : name ∉ (dumpLoop remote (requestedList partition)).2 := by
    rw [dumpLoop_launched]
    intro hmem
    rcases List.mem_filter.mp hmem with ⟨_, hfind⟩
    rcases Option.isSome_iff_exists.mp hfind with ⟨p, hp⟩
    have hmemr : p ∈ remote := List.mem_of_find?_eq_some hp
    have hname := List.find?_some hp
    exact habs p hmemr (by simpa using hname)
  refine ⟨dump_partition_ok partition remote extract hex, ?_, hraw⟩
  unfold resultNames dumpFiles
  rw [dumpLoop_names]
  exact hraw

/-- C7 witness: requesting "boot,xyz" against a listing holding only
`boot` yields no entry for `xyz`. -/
theorem dump_absent_name_dropped_witness :
    "xyz" ∉ resultNames "boot,xyz"
      [{ name := "boot", size_bytes := some 10, hash := none }] :=
  (dump_absent_name_dropped "boot,xyz" "xyz"
    [{ name := "boot", size_bytes := some 10, hash := none }]
    (fun _ => Except.ok ()) (fun _ => rfl) (by decide)).2.1

/-! ## Claim C8: deduplication before extraction -/

/-- C8: for every (in particular every non-empty, duplicate-containing)
requested sequence, the orchestrator deduplicates before the loop: the
worked name list has no duplicates, each name appears in the result and
in the launched units at most once, and every requested name present in
the listing gets exactly one extraction unit. -/
theorem dump_dedup_unique (partition : String) (remote : List RemotePartition)
    (_hdup : ¬ (splitComma partition).Nodup) :
    (requestedList partition).Nodup ∧
    (launchedNames partition remote).Nodup ∧
    (resultNames partition remote).Nodup ∧
    (∀ name, name ∈ splitComma partition → (partitionFind remote name).isSome →
      (launchedNames partition remote).count name = 1) := by
  have hreq : (requestedList partition).Nodup := requestedList_nodup partition
  have hraw : ((dumpLoop remote (requestedList partition)).2).Nodup := by
    rw [dumpLoop_launched]
    exact hreq.filter _
  refine ⟨hreq, hraw, ?_, ?_⟩
  · unfold resultNames dumpFiles
    rw [dumpLoop_names]
    exact hraw
  · intro name hmem hfind
    have hm1 : name ∈ requestedList partition := (mem_requestedList partition name).mpr hmem
    have hm2 : name ∈ (dumpLoop remote (requestedList partition)).2 := by
      rw [dumpLoop_launched]
      exact List.mem_filter.mpr ⟨hm1, hfind⟩
    exact List.count_eq_one_of_mem hraw hm2

/-- C8 witness: the duplicate request "boot,boot" against a listing
holding `boot` launches exactly one extraction for `boot`. -/
theorem dump_dedup_unique_witness :
    ¬ (splitComma "boot,boot").Nodup ∧
    (launchedNames "boot,boot"
      [{ name := "boot", size_bytes := some 1, hash := none }]).count "boot" = 1 :=
  ⟨by decide,
   (dump_dedup_unique "boot,boot"
     [{ name := "boot", size_bytes := some 1, hash := none }] (by decide)).2.2.2
     "boot" (by decide) (by decide)⟩
